import Mathlib

/-!
Verification of the message core of the `secure-group-chat` service.

The definitions below are a shallow embedding of the JavaScript source:

* `src/models/Message.js` — the message schema and its instance methods
  (`markAsRead`, `softDelete`, `edit`);
* `src/models/Group.js` — the group schema (only `members` is consulted);
* the group-message router (`GET/POST/PUT/DELETE /:groupId/messages...`,
  `POST /:groupId/messages/:messageId/read`);
* the Socket.IO handler for the inbound `chat message` event.

The Mongo store is modelled as a `List Message` in insertion order; a
`save` of a document rewrites the store entry carrying the same `_id`
(Mongo `_id`s are unique, which is why `updateFirst` suffices).  A
fallible durable write is modelled by an explicit `saveOk : Bool`
parameter; the handler traces record, in order, the durable write and the
room broadcasts that the handler performs.
-/

namespace Chat

/-- The embedded sender object stored by the socket path
(the `userSchema` subdocument of `models/Message.js`). -/
structure ChatUser where
  id : String
  name : String
  email : String
deriving Repr, DecidableEq

/-- A stored chat message: the fields of `messageSchema` in
`models/Message.js`, plus the Mongo-assigned `_id` (`mid`) and the
`sender` id written by the HTTP create route.  The HTTP routes call the
body field `content`; the schema stores it as `text`.  Optional string
fields that a path leaves unset are `none` / `""`.  `createdAt` is the
creation timestamp (a number; the routes only compare timestamps). -/
structure Message where
  mid : String
  id : String
  text : String
  group : String
  user : Option ChatUser
  sender : String
  type : String
  mediaUrl : Option String
  mediaType : Option String
  readBy : List String
  deleted : Bool
  deletedBy : Option String
  edited : Bool
  editedAt : Option Nat
  replyTo : Option String
  createdAt : Nat
deriving Repr, DecidableEq

/-- A group (`models/Group.js`); the message routes only read `members`. -/
structure Group where
  gid : String
  name : String
  members : List String
  creator : String
deriving Repr, DecidableEq

/-- Method `messageSchema.methods.markAsRead(userName)`:
`if (userName && !this.readBy.includes(userName)) { this.readBy.push(userName); await this.save(); }`.
JS truthiness of a string argument is `userName !== ""`. -/
def Message.markAsRead (m : Message) (userName : String) : Message :=
  if userName ≠ "" ∧ userName ∉ m.readBy then
    { m with readBy := m.readBy ++ [userName] }
  else m

/-- Method `messageSchema.methods.softDelete(userId)`: sets `deleted = true`,
`deletedBy = userId`, saves. -/
def Message.softDelete (m : Message) (userId : String) : Message :=
  { m with deleted := true, deletedBy := some userId }

/-- Method `messageSchema.methods.edit(newText)`: overwrites `text`, sets
`edited = true`, stamps `editedAt = new Date()`, saves. -/
def Message.edit (m : Message) (newText : String) (now : Nat) : Message :=
  { m with text := newText, edited := true, editedAt := some now }

/-- Every field of a message except `readBy`; used to state that an
operation leaves all other message fields unchanged. -/
def Message.core (m : Message) :
    String × String × String × String × Option ChatUser × String × String ×
    Option String × Option String × Bool × Option String × Bool ×
    Option Nat × Option String × Nat :=
  (m.mid, m.id, m.text, m.group, m.user, m.sender, m.type, m.mediaUrl,
   m.mediaType, m.deleted, m.deletedBy, m.edited, m.editedAt, m.replyTo,
   m.createdAt)

/-- Lookup `Group.findById(groupId)` over an in-memory collection. -/
def findGroup (groups : List Group) (groupId : String) : Option Group :=
  groups.find? (fun g => g.gid == groupId)

/-- The JS default-on-falsy idiom `x || d` for an optional string. -/
def jsOrString (o : Option String) (d : String) : String :=
  match o with
  | none => d
  | some s => if s ≠ "" then s else d

/-- The longest leading run of decimal digits of a character list. -/
def leadingDigits : List Char → List Char
  | [] => []
  | c :: cs => if c.isDigit then c :: leadingDigits cs else []

/-- Decimal value of a digit list. -/
def digitsToNat (ds : List Char) : Nat :=
  ds.foldl (fun a c => a * 10 + (c.toNat - 48)) 0

/-- JS `parseInt(s, 10)`: skip leading spaces, optional sign, then the
longest digit prefix; `none` models `NaN` (no digits found). -/
def jsParseInt (s : String) : Option Int :=
  let cs := s.toList.dropWhile (fun c => c = ' ')
  match cs with
  | '-' :: rest =>
    if leadingDigits rest = [] then none
    else some (-(digitsToNat (leadingDigits rest) : Int))
  | '+' :: rest =>
    if leadingDigits rest = [] then none
    else some ((digitsToNat (leadingDigits rest) : Int))
  | _ =>
    if leadingDigits cs = [] then none
    else some ((digitsToNat (leadingDigits cs) : Int))

/-- The parse `parseInt(q) || d` of an optional query parameter: `NaN` (no parse)
and `0` are falsy and give the default; any other value — negative
included — is kept. -/
def parseIntOr (q : Option String) (d : Int) : Int :=
  match q with
  | none => d
  | some s =>
    match jsParseInt s with
    | none => d
    | some n => if n = 0 then d else n

/-- The value `Math.ceil(total / limit)` for a non-negative total.  Only the
`limit > 0` regime is exercised by the routes we verify (JS would give
`Infinity`/`NaN` on a non-positive limit; that value is never produced
under the hypotheses of the theorems below). -/
def jsCeilDiv (total : Nat) (limit : Int) : Int :=
  if 0 < limit then (((total + limit.toNat - 1) / limit.toNat : Nat) : Int)
  else 0

/-- Rewrite the first element satisfying `p` (a Mongo save rewrites the
single document with the matching `_id`). -/
def updateFirst (p : α → Bool) (f : α → α) : List α → List α
  | [] => []
  | x :: xs => if p x then f x :: xs else x :: updateFirst p f xs

/-- Ascending `createdAt` order, the sort key of the list route. -/
def createdAtLe (a b : Message) : Prop := a.createdAt ≤ b.createdAt

instance : DecidableRel createdAtLe :=
  fun a b => inferInstanceAs (Decidable (a.createdAt ≤ b.createdAt))

instance : IsTotal Message createdAtLe :=
  ⟨fun a b => Nat.le_total a.createdAt b.createdAt⟩

instance : IsTrans Message createdAtLe :=
  ⟨fun _ _ _ => Nat.le_trans⟩

/-- The sort `.sort({ createdAt: 1 })`: a stable ascending sort by `createdAt`
(ties keep insertion order). -/
def sortByCreatedAt (l : List Message) : List Message :=
  List.insertionSort createdAtLe l

/-- The filter `{ group: groupId, deleted: false }` used by both the
`find` and the `countDocuments` of the list route. -/
def isVisibleIn (groupId : String) (m : Message) : Bool :=
  m.group == groupId && !m.deleted

/-- The query `Message.find({group, deleted:false}).sort({createdAt: 1})`. -/
def groupMessages (store : List Message) (groupId : String) : List Message :=
  sortByCreatedAt (store.filter (isVisibleIn groupId))

/-- The pagination envelope of the list route. -/
structure Pagination where
  total : Nat
  page : Int
  pages : Int
  limit : Int
deriving Repr, DecidableEq

/-- Outcome of a route handler: the constructors carry the HTTP error
class (404 / 403 / 500) and the JSON error string of the source. -/
inductive HandlerResult (α : Type) where
  | ok (value : α)
  | notFound (msg : String)
  | forbidden (msg : String)
  | internal (msg : String)
deriving Repr, DecidableEq

/-- The HTTP status code a `HandlerResult` is sent with (`ok` is the
200 or 201 of the ok routes). -/
def HandlerResult.status : HandlerResult α → Nat
  | .ok _ => 200
  | .notFound _ => 404
  | .forbidden _ => 403
  | .internal _ => 500

/-- Observable side effects of a handler, in program order. -/
inductive Effect where
  | save (m : Message)
  | emit (room : String) (event : String)
  | logError (s : String)
deriving Repr, DecidableEq

/-- Result of `GET /:groupId/messages`: the response plus the store as
left behind (the route mutates `readBy`, see `getMessages`). -/
structure ListOutcome where
  result : HandlerResult (List Message × Pagination)
  store : List Message
deriving Repr, DecidableEq

/-- Route `GET /:groupId/messages` (the list route).  Parses `page`/`limit`
with `parseInt(..) || default`, checks the group and the membership of
the caller, reads the non-deleted messages of the group sorted by
`createdAt` ascending, slices by `skip = (page-1)*limit` and `limit`,
then — before responding — runs `markAsRead(req.user.name)` on every
returned message whose `readBy` does not yet contain the display
name of the caller, saving each such document. -/
def getMessages (groups : List Group) (store : List Message)
    (groupId : String) (pageQ limitQ : Option String)
    (uid uname : String) : ListOutcome :=
  let page := parseIntOr pageQ 1
  let limit := parseIntOr limitQ 50
  let skip := (page - 1) * limit
  match findGroup groups groupId with
  | none => ⟨.notFound "Group not found", store⟩
  | some g =>
    if uid ∈ g.members then
      let total := (store.filter (isVisibleIn groupId)).length
      let msgs := ((groupMessages store groupId).drop skip.toNat).take limit.toNat
      let touch := fun (m : Message) =>
        if uname ∈ m.readBy then m else m.markAsRead uname
      ⟨.ok (msgs.map touch,
            ⟨total, page, jsCeilDiv total limit, limit⟩),
       store.map (fun m =>
         if msgs.any (fun x => x.mid == m.mid) then touch m else m)⟩
    else ⟨.forbidden "You are not a member of this group", store⟩

/-- Result of a mutating route: response, store left behind, effects. -/
structure MutOutcome (α : Type) where
  result : HandlerResult α
  store : List Message
  trace : List Effect
deriving Repr, DecidableEq

/-- The document `Message.create` inserts on the HTTP create route:
`{content, group, sender: req.user.id, readBy: [req.user.id], type, replyTo}`
(the schema supplies the defaults of the remaining fields). -/
def newMessageRec (groupId uid content ty : String) (replyTo : Option String)
    (freshMid : String) (now : Nat) : Message :=
  { mid := freshMid, id := "", text := content, group := groupId,
    user := none, sender := uid, type := ty, mediaUrl := none,
    mediaType := none, readBy := [uid], deleted := false,
    deletedBy := none, edited := false, editedAt := none,
    replyTo := replyTo, createdAt := now }

/-- Route `POST /:groupId/messages` (create).  Group and membership checks,
then — when `replyTo` is truthy — `findOne({_id: replyTo, group, deleted:false})`
must succeed, else 404 and nothing is written.  The created document
gets `readBy: [req.user.id]`; `saveOk` models whether `Message.create`
succeeds.  Only after the successful durable write does the handler emit
`newMessage` to the group room; on failure the error is only logged and
a 500 is returned. -/
def createMessage (groups : List Group) (store : List Message)
    (groupId uid content ty : String) (replyTo : Option String)
    (freshMid : String) (now : Nat) (saveOk : Bool) : MutOutcome Message :=
  match findGroup groups groupId with
  | none => ⟨.notFound "Group not found", store, []⟩
  | some g =>
    if uid ∈ g.members then
      let parentOk :=
        match replyTo with
        | none => true
        | some r =>
          if r = "" then true
          else store.any (fun m => m.mid == r && m.group == groupId && !m.deleted)
      if parentOk then
        if saveOk then
          let m := newMessageRec groupId uid content ty replyTo freshMid now
          ⟨.ok m, store ++ [m], [.save m, .emit groupId "newMessage"]⟩
        else
          ⟨.internal "Failed to send message", store,
           [.logError "Error sending message"]⟩
      else ⟨.notFound "Parent message not found", store, []⟩
    else ⟨.forbidden "You are not a member of this group", store, []⟩

/-- The lookup filter shared by the edit and delete routes:
`findOne({_id: messageId, group: groupId, sender: req.user.id, deleted: false})`. -/
def ownNonDeleted (messageId groupId uid : String) (m : Message) : Bool :=
  m.mid == messageId && m.group == groupId && m.sender == uid && !m.deleted

/-- Route `PUT /:groupId/messages/:messageId` (edit).  One `findOne` with the
`ownNonDeleted` filter; any miss — absent, soft-deleted, or a caller who
is not the sender — yields the same 404.  On a hit the document is
edited, saved, and `messageEdited` is emitted to the group room. -/
def editMessage (store : List Message) (groupId messageId uid content : String)
    (now : Nat) : MutOutcome Message :=
  match store.find? (ownNonDeleted messageId groupId uid) with
  | none => ⟨.notFound "Message not found or unauthorized", store, []⟩
  | some m =>
    ⟨.ok (m.edit content now),
     updateFirst (ownNonDeleted messageId groupId uid)
       (fun x => x.edit content now) store,
     [.save (m.edit content now), .emit groupId "messageEdited"]⟩

/-- Route `DELETE /:groupId/messages/:messageId` (soft delete).  Same lookup
as the edit route; on a hit the document gets `softDelete(req.user.id)`
and `messageDeleted` is emitted to the group room. -/
def deleteMessage (store : List Message) (groupId messageId uid : String) :
    MutOutcome Unit :=
  match store.find? (ownNonDeleted messageId groupId uid) with
  | none => ⟨.notFound "Message not found or unauthorized", store, []⟩
  | some m =>
    ⟨.ok (), updateFirst (ownNonDeleted messageId groupId uid)
       (fun x => x.softDelete uid) store,
     [.save (m.softDelete uid), .emit groupId "messageDeleted"]⟩

/-- Route `POST /:groupId/messages/:messageId/read` (mark read).  Checks the
group of the URL and the membership of the caller in that group, then
looks the message up with `Message.findById(messageId)` — with no group
constraint — calls `markAsRead(req.user.id)` on it, and emits
`messageRead` to the room of the URL group. -/
def markMessageRead (groups : List Group) (store : List Message)
    (groupId messageId uid : String) : MutOutcome Unit :=
  match findGroup groups groupId with
  | none => ⟨.notFound "Group not found", store, []⟩
  | some g =>
    if uid ∈ g.members then
      match store.find? (fun m => m.mid == messageId) with
      | none => ⟨.notFound "Message not found", store, []⟩
      | some _ =>
        ⟨.ok (), updateFirst (fun m => m.mid == messageId)
           (fun m => m.markAsRead uid) store,
         [.emit groupId "messageRead"]⟩
    else ⟨.forbidden "You are not a member of this group", store, []⟩

/-- The payload of the inbound Socket.IO `chat message` event. -/
structure ChatPayload where
  id : String
  text : String
  groupId : String
  user : ChatUser
  type : Option String
  mediaUrl : Option String
  mediaType : Option String
deriving Repr, DecidableEq

/-- Result of the socket `chat message` handler. -/
structure SocketOutcome where
  store : List Message
  trace : List Effect
deriving Repr, DecidableEq

/-- The document `new Message({...})` built by the socket `chat message`
handler, straight from the payload: note the absence of `readBy` (the
schema default `[]` applies) and the type falls back to text via
`data.type || default`. -/
def socketMessageRec (data : ChatPayload) (freshMid : String) (now : Nat) :
    Message :=
  { mid := freshMid, id := data.id, text := data.text,
    group := data.groupId, user := some data.user, sender := "",
    type := jsOrString data.type "text", mediaUrl := data.mediaUrl,
    mediaType := data.mediaType, readBy := [], deleted := false,
    deletedBy := none, edited := false, editedAt := none,
    replyTo := none, createdAt := now }

/-- The Socket.IO `chat message` handler: builds a document straight from
the payload — note that no `readBy` is set, so the schema default `[]`
applies — then `await message.save()`; only on success does it emit the
`chat message` event to the room `data.groupId`; on a save error it only
logs (nothing is emitted, nothing is stored). -/
def socketChatMessage (store : List Message) (data : ChatPayload)
    (freshMid : String) (now : Nat) (saveOk : Bool) : SocketOutcome :=
  let m := socketMessageRec data freshMid now
  if saveOk then
    ⟨store ++ [m], [.save m, .emit data.groupId "chat message"]⟩
  else
    ⟨store, [.logError "Error saving message"]⟩

/-- State of one message while several `markAsRead` calls are in flight:
the `readBy` array in the store and, per call, the local snapshot of the
document the call loaded (`none` before its load).  This makes the
check-then-act structure of `markAsRead` explicit: a call first loads
the document (`Message.findById` or the page fetch), evaluates the
`includes` check against that snapshot, and — when the check passes —
pushes and saves, which Mongoose persists as an atomic `$push` delta
appended to the stored array. -/
structure ReadState where
  store : List String
  locals : List (Option (List String))
deriving Repr, DecidableEq

/-- The two atomic steps of an in-flight `markAsRead` call `i`. -/
inductive ReadEvent where
  | load (i : Nat)
  | save (i : Nat)
deriving Repr, DecidableEq

/-- One complete, uninterleaved `markAsRead(u)` acting on a plain
`readBy` array (the effect of the method body when no other call runs
between its load and its save). -/
def pushIfAbsent (s : List String) (u : String) : List String :=
  if u ≠ "" ∧ u ∉ s then s ++ [u] else s

/-- Interleaving semantics of the in-flight calls: `load i` snapshots
the store into the local document of call `i`; `save i` runs the method
body on that snapshot: the `includes` check is evaluated against the
snapshot the call loaded, and when it passes, `save()` sends the
recorded push as an atomic Mongoose `$push` delta, which the store
applies by appending the user to its current array (not by overwriting
the array with the snapshot). -/
def readStep (users : List String) (st : ReadState) : ReadEvent → ReadState
  | .load i => { st with locals := st.locals.set i (some st.store) }
  | .save i =>
    match st.locals[i]?, users[i]? with
    | some (some snap), some u =>
      if u ≠ "" ∧ u ∉ snap then { st with store := st.store ++ [u] } else st
    | _, _ => st

/-- Run a schedule of load/save events for the calls `users` (call `i`
is by `users[i]`) from an initial `readBy` array. -/
def runReads (users : List String) (init : List String)
    (sched : List ReadEvent) : ReadState :=
  sched.foldl (readStep users) ⟨init, List.replicate users.length none⟩

/-- The events of calls `k, k+1, …, k+m-1`, each call completing before
the next begins. -/
def seqSchedAux : Nat → Nat → List ReadEvent
  | _, 0 => []
  | k, m + 1 => .load k :: .save k :: seqSchedAux (k + 1) m

/-- The fully sequential schedule of `n` calls. -/
def seqSched (n : Nat) : List ReadEvent := seqSchedAux 0 n

/-- A schedule in which each of the `n` calls loads exactly once, saves
exactly once, and loads before it saves — i.e. a legal concurrent
execution in which every call runs to completion. -/
def isCompleteSchedule (n : Nat) (sched : List ReadEvent) : Bool :=
  sched.length == 2 * n &&
  (List.range n).all (fun i =>
    sched.count (.load i) == 1 && sched.count (.save i) == 1 &&
    sched.indexOf (.load i) < sched.indexOf (.save i))

/-- Among the events of call `i` in a schedule, the load comes first:
true when the first `load i` or `save i` encountered is the load. -/
def loadFirst (i : Nat) : List ReadEvent → Bool
  | [] => false
  | .load j :: rest => j == i || loadFirst i rest
  | .save j :: rest => !(j == i) && loadFirst i rest

/-- Sequential composition of complete `markAsRead` calls on a plain
`readBy` array. -/
def seqMarkAll (init : List String) (users : List String) : List String :=
  users.foldl pushIfAbsent init

/-! Concrete data used to evaluate the handlers at specific inputs. -/

/-- A sample stored message: sent by `alice` into group `g1`, not deleted. -/
def sampleMsg : Message :=
  { mid := "m1", id := "", text := "hello", group := "g1", user := none,
    sender := "alice", type := "text", mediaUrl := none, mediaType := none,
    readBy := ["alice"], deleted := false, deletedBy := none,
    edited := false, editedAt := none, replyTo := none, createdAt := 1 }

/-- A sample group `g1` containing `alice` and `bob`. -/
def group1 : Group :=
  { gid := "g1", name := "One", members := ["alice", "bob"], creator := "alice" }

/-- A sample group `gA` whose only member is `u1`. -/
def groupA : Group := { gid := "gA", name := "A", members := ["u1"], creator := "u1" }

/-- A sample group `gB` whose only member is `u2`; `u1` is not a member. -/
def groupB : Group := { gid := "gB", name := "B", members := ["u2"], creator := "u2" }

/-- A sample message living in group `gB`. -/
def msgInB : Message :=
  { mid := "m9", id := "", text := "secret", group := "gB", user := none,
    sender := "u2", type := "text", mediaUrl := none, mediaType := none,
    readBy := [], deleted := false, deletedBy := none,
    edited := false, editedAt := none, replyTo := none, createdAt := 3 }

/-- A sample inbound socket payload whose sender id is `u1`. -/
def samplePayload : ChatPayload :=
  { id := "c1", text := "hi", groupId := "g1",
    user := { id := "u1", name := "Alice", email := "alice@example.com" },
    type := none, mediaUrl := none, mediaType := none }

/-! Preservation lemmas: `markAsRead` touches only `readBy`. -/

@[simp] theorem markAsRead_mid (m : Message) (u : String) :
    (m.markAsRead u).mid = m.mid := by
  unfold Message.markAsRead; split <;> rfl

@[simp] theorem markAsRead_group (m : Message) (u : String) :
    (m.markAsRead u).group = m.group := by
  unfold Message.markAsRead; split <;> rfl

@[simp] theorem markAsRead_deleted (m : Message) (u : String) :
    (m.markAsRead u).deleted = m.deleted := by
  unfold Message.markAsRead; split <;> rfl

@[simp] theorem markAsRead_createdAt (m : Message) (u : String) :
    (m.markAsRead u).createdAt = m.createdAt := by
  unfold Message.markAsRead; split <;> rfl

@[simp] theorem markAsRead_core (m : Message) (u : String) :
    (m.markAsRead u).core = m.core := by
  unfold Message.markAsRead; split <;> rfl

/-! Helper lemmas about `updateFirst` and `find?`. -/

theorem updateFirst_of_forall_not (p : α → Bool) (f : α → α) (l : List α)
    (h : ∀ x ∈ l, p x = false) : updateFirst p f l = l := by
  induction l with
  | nil => rfl
  | cons a as ih =>
    have ha : p a = false := h a (by simp)
    simp only [updateFirst, ha, Bool.false_eq_true, if_false, List.cons.injEq,
      true_and]
    exact ih fun x hx => h x (by simp [hx])

theorem updateFirst_append_cons (p : α → Bool) (f : α → α)
    (pre : List α) (x : α) (post : List α)
    (hpre : ∀ y ∈ pre, p y = false) (hx : p x = true) :
    updateFirst p f (pre ++ x :: post) = pre ++ f x :: post := by
  induction pre with
  | nil => simp [updateFirst, hx]
  | cons a as ih =>
    have ha : p a = false := hpre a (by simp)
    simp only [List.cons_append, updateFirst, ha, Bool.false_eq_true, if_false,
      List.cons.injEq, true_and]
    exact ih fun y hy => hpre y (by simp [hy])

theorem find?_append_cons (p : α → Bool) (pre : List α) (x : α) (post : List α)
    (hpre : ∀ y ∈ pre, p y = false) (hx : p x = true) :
    (pre ++ x :: post).find? p = some x := by
  induction pre with
  | nil => simp [List.find?_cons_of_pos, hx]
  | cons a as ih =>
    have ha : p a = false := hpre a (by simp)
    rw [List.cons_append, List.find?_cons_of_neg _ (by simp [ha])]
    exact ih fun y hy => hpre y (by simp [hy])

/-- C10: the mark-read endpoint checks membership only against the URL
group and then looks the message up by id alone.  Concretely: `u1` is a
member of `gA` only; message `m9` lives in group `gB`, whose members do
not include `u1`; yet `POST /gA/messages/m9/read` succeeds, adds `u1`
to the `readBy` of `m9`, and broadcasts `messageRead` to room `gA`,
not to the room of the group the message belongs to. -/
theorem markRead_cross_group_access :
    (markMessageRead [groupA, groupB] [msgInB] "gA" "m9" "u1").result = .ok ()
    ∧ msgInB.group = "gB"
    ∧ "u1" ∉ groupB.members
    ∧ ("gA" : String) ≠ "gB"
    ∧ (markMessageRead [groupA, groupB] [msgInB] "gA" "m9" "u1").store
        = [{ msgInB with readBy := ["u1"] }]
    ∧ (markMessageRead [groupA, groupB] [msgInB] "gA" "m9" "u1").trace
        = [.emit "gA" "messageRead"] := by
  decide

/-- C7 counterexample: a negative `page` query value is not replaced by
the default.  With `page=-2` the list route answers 200 and echoes
`pagination.page = -2`, not the default `1`. -/
theorem negative_page_not_defaulted :
    (getMessages [groupA] [] "gA" (some "-2") none "u1" "Alice").result
      = .ok ([], { total := 0, page := -2, pages := 0, limit := 50 })
    ∧ ((-2 : Int) = 1 → False) := by
  decide

/-- C3 counterexample: the socket `chat message` path stores the new
message with an empty `readBy`, not with the singleton of the sender id
(`samplePayload.user.id = "u1"`). -/
theorem socket_readBy_empty :
    (socketChatMessage [] samplePayload "m1" 7 true).store.map Message.readBy
      = [[]]
    ∧ samplePayload.user.id = "u1"
    ∧ ((socketChatMessage [] samplePayload "m1" 7 true).store.map Message.readBy
        = [["u1"]] → False) := by
  decide

/-- C2 counterexample: `bob` is not the sender of `sampleMsg`, which
exists and is not deleted, yet the edit route answers 404 NotFound
(`Message not found or unauthorized`) — not a 403 Unauthorized. -/
theorem edit_nonsender_gets_notFound :
    (editMessage [sampleMsg] "g1" "m1" "bob" "new" 5).result
      = .notFound "Message not found or unauthorized"
    ∧ (editMessage [sampleMsg] "g1" "m1" "bob" "new" 5).result.status = 404
    ∧ sampleMsg.mid = "m1" ∧ sampleMsg.group = "g1"
    ∧ sampleMsg.deleted = false ∧ (sampleMsg.sender = "bob" → False)
    ∧ (∀ s, (editMessage [sampleMsg] "g1" "m1" "bob" "new" 5).result
        = .forbidden s → False) := by
  refine ⟨by decide, by decide, by decide, by decide, by decide, by decide, ?_⟩
  intro s h
  have h1 : (editMessage [sampleMsg] "g1" "m1" "bob" "new" 5).result
      = .notFound "Message not found or unauthorized" := by decide
  rw [h1] at h
  exact HandlerResult.noConfusion h

/-- C1 counterexample: two concurrent `markAsRead` calls by the same
user `a` on a message with empty `readBy`, each a complete
load-then-save call, interleaved load/load/save/save.  The schedule is
a legal complete execution; both calls evaluate the `includes` check on
a snapshot that lacks `a`, so both saves apply their atomic `$push`
delta and the final `readBy` is `["a", "a"]`: the user appears twice,
because the membership check and the push are not one atomic
set-insert. -/
theorem markRead_concurrent_duplicate :
    isCompleteSchedule 2 [.load 0, .load 1, .save 0, .save 1] = true
    ∧ (runReads ["a", "a"] [] [.load 0, .load 1, .save 0, .save 1]).store
        = ["a", "a"]
    ∧ ¬ (runReads ["a", "a"] [] [.load 0, .load 1, .save 0, .save 1]).store.Nodup := by
  decide

/-- C2 (amended): every failed edit answers 404 NotFound — the route
uses one `findOne({_id, group, sender, deleted: false})`, so a missing
message, a soft-deleted message, and a caller who is not the sender are
indistinguishable (`ownNonDeleted` false for every stored document);
when the store does contain a matching non-deleted document of the
caller, the edit succeeds, sets `edited = true`, stamps `editedAt`, and
the stored `text` equals the new content. -/
theorem edit_route_spec (store : List Message)
    (groupId messageId uid content : String) (now : Nat) :
    ((∀ m ∈ store, ownNonDeleted messageId groupId uid m = false) →
       (editMessage store groupId messageId uid content now).result
         = .notFound "Message not found or unauthorized"
       ∧ (editMessage store groupId messageId uid content now).store = store)
    ∧ (∀ pre m post, store = pre ++ m :: post →
        (∀ y ∈ pre, ownNonDeleted messageId groupId uid y = false) →
        ownNonDeleted messageId groupId uid m = true →
        (editMessage store groupId messageId uid content now).result
          = .ok (m.edit content now)
        ∧ (editMessage store groupId messageId uid content now).store
            = pre ++ m.edit content now :: post
        ∧ (m.edit content now).text = content
        ∧ (m.edit content now).edited = true
        ∧ (m.edit content now).editedAt = some now) := by
  constructor
  · intro h
    have hf : store.find? (ownNonDeleted messageId groupId uid) = none :=
      List.find?_eq_none.mpr (fun x hx => by simp [h x hx])
    simp [editMessage, hf]
  · intro pre m post hst hpre hm
    subst hst
    have hf := find?_append_cons (ownNonDeleted messageId groupId uid)
      pre m post hpre hm
    have hu := updateFirst_append_cons (ownNonDeleted messageId groupId uid)
      (fun x => x.edit content now) pre m post hpre hm
    unfold editMessage
    rw [hf]
    exact ⟨rfl, hu, rfl, rfl, rfl⟩

/-- Witness for `edit_route_spec`: `alice` editing her own message
succeeds; editing a missing id answers 404. -/
theorem edit_route_spec_witness :
    (editMessage [sampleMsg] "g1" "m1" "alice" "new" 5).result
      = .ok (sampleMsg.edit "new" 5)
    ∧ (editMessage [sampleMsg] "g1" "m2" "alice" "new" 5).result
      = .notFound "Message not found or unauthorized" := by
  constructor
  · exact ((edit_route_spec [sampleMsg] "g1" "m1" "alice" "new" 5).2
      [] sampleMsg [] rfl (by simp) (by decide)).1
  · exact ((edit_route_spec [sampleMsg] "g1" "m2" "alice" "new" 5).1
      (by decide)).1

/-- C6: deleting an already-deleted (or absent) message answers 404
NotFound — the route filter includes `deleted: false`, so no store
document matches and nothing changes; deleting an existing non-deleted
message as its sender succeeds, sets `deleted = true` and records
`deletedBy` as the caller. -/
theorem softDelete_route_spec (store : List Message)
    (groupId messageId uid : String) :
    ((∀ m ∈ store, m.mid = messageId → m.deleted = true) →
       (deleteMessage store groupId messageId uid).result
         = .notFound "Message not found or unauthorized"
       ∧ (deleteMessage store groupId messageId uid).store = store)
    ∧ (∀ pre m post, store = pre ++ m :: post →
        (∀ y ∈ pre, ownNonDeleted messageId groupId uid y = false) →
        m.mid = messageId → m.group = groupId → m.sender = uid →
        m.deleted = false →
        (deleteMessage store groupId messageId uid).result = .ok ()
        ∧ (deleteMessage store groupId messageId uid).store
            = pre ++ m.softDelete uid :: post
        ∧ (m.softDelete uid).deleted = true
        ∧ (m.softDelete uid).deletedBy = some uid) := by
  constructor
  · intro h
    have hall : ∀ m ∈ store, ownNonDeleted messageId groupId uid m = false := by
      intro x hx
      by_cases hmid : x.mid = messageId
      · simp [ownNonDeleted, h x hx hmid]
      · simp [ownNonDeleted, hmid]
    have hf : store.find? (ownNonDeleted messageId groupId uid) = none :=
      List.find?_eq_none.mpr (fun x hx => by simp [hall x hx])
    simp [deleteMessage, hf]
  · intro pre m post hst hpre h1 h2 h3 h4
    subst hst
    have hm : ownNonDeleted messageId groupId uid m = true := by
      simp [ownNonDeleted, h1, h2, h3, h4]
    have hf := find?_append_cons (ownNonDeleted messageId groupId uid)
      pre m post hpre hm
    have hu := updateFirst_append_cons (ownNonDeleted messageId groupId uid)
      (fun x => x.softDelete uid) pre m post hpre hm
    unfold deleteMessage
    rw [hf]
    exact ⟨rfl, hu, rfl, rfl⟩

/-- Witness for `softDelete_route_spec`: deleting an already-deleted
message answers 404; `alice` deleting her own live message succeeds. -/
theorem softDelete_route_spec_witness :
    (deleteMessage [{ sampleMsg with deleted := true }] "g1" "m1" "alice").result
      = .notFound "Message not found or unauthorized"
    ∧ (deleteMessage [sampleMsg] "g1" "m1" "alice").result = .ok () := by
  constructor
  · exact ((softDelete_route_spec [{ sampleMsg with deleted := true }]
      "g1" "m1" "alice").1 (by decide)).1
  · exact ((softDelete_route_spec [sampleMsg] "g1" "m1" "alice").2
      [] sampleMsg [] rfl (by simp) (by decide) (by decide) (by decide)
      (by decide)).1

/-- Exhaustive list of outcome forms of the HTTP create route: the three
pre-write rejections leave the store untouched with an empty trace, a
failed durable write leaves the store untouched and only logs, and a
successful write appends exactly the created document and traces the
durable write followed by the broadcast. -/
theorem createMessage_forms (groups : List Group) (store : List Message)
    (g uid content ty : String) (rt : Option String) (fm : String)
    (now : Nat) (saveOk : Bool) :
    createMessage groups store g uid content ty rt fm now saveOk
      = ⟨.notFound "Group not found", store, []⟩
    ∨ createMessage groups store g uid content ty rt fm now saveOk
      = ⟨.forbidden "You are not a member of this group", store, []⟩
    ∨ createMessage groups store g uid content ty rt fm now saveOk
      = ⟨.notFound "Parent message not found", store, []⟩
    ∨ (saveOk = false ∧ createMessage groups store g uid content ty rt fm now saveOk
      = ⟨.internal "Failed to send message", store,
         [.logError "Error sending message"]⟩)
    ∨ (saveOk = true ∧ createMessage groups store g uid content ty rt fm now saveOk
      = ⟨.ok (newMessageRec g uid content ty rt fm now),
         store ++ [newMessageRec g uid content ty rt fm now],
         [.save (newMessageRec g uid content ty rt fm now),
          .emit g "newMessage"]⟩) := by
  rcases hg : findGroup groups g with _ | grp
  · exact Or.inl (by simp [createMessage, hg])
  · by_cases hm : uid ∈ grp.members
    · rcases rt with _ | r
      · cases saveOk with
        | false =>
          exact Or.inr (Or.inr (Or.inr (Or.inl
            ⟨rfl, by simp [createMessage, hg, hm]⟩)))
        | true =>
          exact Or.inr (Or.inr (Or.inr (Or.inr
            ⟨rfl, by simp [createMessage, hg, hm]⟩)))
      · by_cases hr : r = ""
        · cases saveOk with
          | false =>
            exact Or.inr (Or.inr (Or.inr (Or.inl
              ⟨rfl, by simp [createMessage, hg, hm, hr]⟩)))
          | true =>
            exact Or.inr (Or.inr (Or.inr (Or.inr
              ⟨rfl, by simp [createMessage, hg, hm, hr]⟩)))
        · cases hb : store.any
              (fun m => m.mid == r && m.group == g && !m.deleted) with
          | false =>
            exact Or.inr (Or.inr (Or.inl
              (by simp [createMessage, hg, hm, hr, hb])))
          | true =>
            cases saveOk with
            | false =>
              exact Or.inr (Or.inr (Or.inr (Or.inl
                ⟨rfl, by simp [createMessage, hg, hm, hr, hb]⟩)))
            | true =>
              exact Or.inr (Or.inr (Or.inr (Or.inr
                ⟨rfl, by simp [createMessage, hg, hm, hr, hb]⟩)))
    · exact Or.inr (Or.inl (by simp [createMessage, hg, hm]))

/-- C4: on both send paths the broadcast is emitted only after the
durable write has succeeded.  Socket path: any emitted event implies the
save succeeded; on failure the store is unchanged and only the error log
is traced; on success the trace is exactly the durable write followed by
the room broadcast.  HTTP path: any emitted event implies the save
succeeded, a failed save leaves the store unchanged, and whenever an
event is emitted the whole trace is the durable write followed by the
`newMessage` broadcast, with the created document appended to the store. -/
theorem broadcast_after_durable_write (groups : List Group)
    (store₁ store₂ : List Message) (g uid content ty : String)
    (rt : Option String) (fm : String) (now : Nat) (data : ChatPayload)
    (fm₂ : String) (now₂ : Nat) (saveOk : Bool) :
    ((∃ r e, Effect.emit r e ∈ (socketChatMessage store₂ data fm₂ now₂ saveOk).trace)
       → saveOk = true)
    ∧ (saveOk = false →
        (socketChatMessage store₂ data fm₂ now₂ saveOk).store = store₂
        ∧ (socketChatMessage store₂ data fm₂ now₂ saveOk).trace
            = [.logError "Error saving message"])
    ∧ (saveOk = true →
        (socketChatMessage store₂ data fm₂ now₂ saveOk).store
          = store₂ ++ [socketMessageRec data fm₂ now₂]
        ∧ (socketChatMessage store₂ data fm₂ now₂ saveOk).trace
            = [.save (socketMessageRec data fm₂ now₂),
               .emit data.groupId "chat message"])
    ∧ ((∃ r e, Effect.emit r e
          ∈ (createMessage groups store₁ g uid content ty rt fm now saveOk).trace)
       → saveOk = true)
    ∧ (saveOk = false →
        (createMessage groups store₁ g uid content ty rt fm now saveOk).store
          = store₁)
    ∧ (∀ r e, Effect.emit r e
          ∈ (createMessage groups store₁ g uid content ty rt fm now saveOk).trace →
        (createMessage groups store₁ g uid content ty rt fm now saveOk).trace
          = [.save (newMessageRec g uid content ty rt fm now),
             .emit g "newMessage"]
        ∧ (createMessage groups store₁ g uid content ty rt fm now saveOk).store
          = store₁ ++ [newMessageRec g uid content ty rt fm now]) := by
  refine ⟨?_, ?_, ?_, ?_, ?_, ?_⟩
  · rintro ⟨r, e, hre⟩
    cases saveOk with
    | true => rfl
    | false => simp [socketChatMessage] at hre
  · rintro rfl
    exact ⟨rfl, rfl⟩
  · rintro rfl
    exact ⟨rfl, rfl⟩
  · rintro ⟨r, e, hre⟩
    rcases createMessage_forms groups store₁ g uid content ty rt fm now saveOk
      with h | h | h | ⟨_, h⟩ | ⟨hs, _⟩
    · rw [h] at hre; simp at hre
    · rw [h] at hre; simp at hre
    · rw [h] at hre; simp at hre
    · rw [h] at hre; simp at hre
    · exact hs
  · intro hs
    rcases createMessage_forms groups store₁ g uid content ty rt fm now saveOk
      with h | h | h | ⟨_, h⟩ | ⟨hs', _⟩
    · rw [h]
    · rw [h]
    · rw [h]
    · rw [h]
    · rw [hs'] at hs; exact absurd hs (by simp)
  · intro r e hre
    rcases createMessage_forms groups store₁ g uid content ty rt fm now saveOk
      with h | h | h | ⟨_, h⟩ | ⟨_, h⟩
    · rw [h] at hre; simp at hre
    · rw [h] at hre; simp at hre
    · rw [h] at hre; simp at hre
    · rw [h] at hre; simp at hre
    · rw [h]; exact ⟨rfl, rfl⟩

/-- Witness for `broadcast_after_durable_write`: a failed socket save
leaves the store empty, and a successful HTTP create traces the durable
write before the `newMessage` broadcast. -/
theorem broadcast_after_durable_write_witness :
    (socketChatMessage [] samplePayload "m1" 7 false).store = []
    ∧ (createMessage [groupA] [] "gA" "u1" "hi" "text" none "m2" 8 true).trace
        = [.save (newMessageRec "gA" "u1" "hi" "text" none "m2" 8),
           .emit "gA" "newMessage"] := by
  constructor
  · exact ((broadcast_after_durable_write [groupA] [] [] "gA" "u1" "hi" "text"
      none "m2" 8 samplePayload "m1" 7 false).2.1 rfl).1
  · exact ((broadcast_after_durable_write [groupA] [] [] "gA" "u1" "hi" "text"
      none "m2" 8 samplePayload "m1" 7 true).2.2.2.2.2 "gA" "newMessage"
      (by decide)).1

/-- C3 (amended): a successful HTTP create initialises `readBy` to the
singleton of the sender id, but the socket `chat message` path stores
the message with `readBy = []` (the schema default), not with the
sender in it. -/
theorem readBy_initialization (groups : List Group)
    (store₁ store₂ : List Message) (g uid content ty : String)
    (rt : Option String) (fm : String) (now : Nat) (saveOk : Bool)
    (data : ChatPayload) (fm₂ : String) (now₂ : Nat) :
    (∀ m, (createMessage groups store₁ g uid content ty rt fm now saveOk).result
        = .ok m → m.readBy = [uid])
    ∧ (saveOk = true →
        (socketChatMessage store₂ data fm₂ now₂ saveOk).store
          = store₂ ++ [socketMessageRec data fm₂ now₂]
        ∧ (socketMessageRec data fm₂ now₂).readBy = []
        ∧ (socketMessageRec data fm₂ now₂).user = some data.user) := by
  constructor
  · intro m hm
    rcases createMessage_forms groups store₁ g uid content ty rt fm now saveOk
      with h | h | h | ⟨_, h⟩ | ⟨_, h⟩
    · rw [h] at hm; simp at hm
    · rw [h] at hm; simp at hm
    · rw [h] at hm; simp at hm
    · rw [h] at hm; simp at hm
    · rw [h] at hm
      simp only [HandlerResult.ok.injEq] at hm
      rw [← hm]
      rfl
  · rintro rfl
    exact ⟨rfl, rfl, rfl⟩

/-- Witness for `readBy_initialization`: a concrete HTTP create stores
`readBy = ["alice"]`; a concrete socket send stores the payload
document (whose `readBy` is empty). -/
theorem readBy_initialization_witness :
    (newMessageRec "g1" "alice" "hi" "text" none "m7" 4).readBy = ["alice"]
    ∧ (socketChatMessage [] samplePayload "m1" 7 true).store
        = [socketMessageRec samplePayload "m1" 7] := by
  constructor
  · exact (readBy_initialization [group1] [] [] "g1" "alice" "hi" "text" none
      "m7" 4 true samplePayload "m1" 7).1 _ (by decide)
  · simpa using ((readBy_initialization [group1] [] [] "g1" "alice" "hi" "text"
      none "m7" 4 true samplePayload "m1" 7).2 rfl).1

/-- C8: with the group check and the membership check passed and a
truthy `replyTo`, the create route answers 404 and writes nothing when
no non-deleted message with that id exists in the group, and proceeds to
create the message when such a parent exists. -/
theorem replyTo_validation (groups : List Group) (store : List Message)
    (g uid content ty r fm : String) (now : Nat) (saveOk : Bool) (grp : Group)
    (hg : findGroup groups g = some grp) (hm : uid ∈ grp.members)
    (hr : r ≠ "") :
    ((∀ m ∈ store, ¬(m.mid = r ∧ m.group = g ∧ m.deleted = false)) →
       createMessage groups store g uid content ty (some r) fm now saveOk
         = ⟨.notFound "Parent message not found", store, []⟩)
    ∧ ((∃ m ∈ store, m.mid = r ∧ m.group = g ∧ m.deleted = false) →
       saveOk = true →
       (createMessage groups store g uid content ty (some r) fm now saveOk).result
         = .ok (newMessageRec g uid content ty (some r) fm now)
       ∧ (createMessage groups store g uid content ty (some r) fm now saveOk).store
         = store ++ [newMessageRec g uid content ty (some r) fm now]) := by
  constructor
  · intro hnone
    have hb : store.any (fun m => m.mid == r && m.group == g && !m.deleted)
        = false := by
      rw [List.any_eq_false]
      intro x hx
      simpa using hnone x hx
    simp [createMessage, hg, hm, hr, hb]
  · rintro ⟨m, hmem, h1, h2, h3⟩ rfl
    have hb : store.any (fun m => m.mid == r && m.group == g && !m.deleted)
        = true := by
      rw [List.any_eq_true]
      exact ⟨m, hmem, by simp [h1, h2, h3]⟩
    constructor <;> simp [createMessage, hg, hm, hr, hb]

/-- Witness for `replyTo_validation`: replying to the missing id `zz`
answers 404; replying to the live message `m1` succeeds. -/
theorem replyTo_validation_witness :
    (createMessage [group1] [sampleMsg] "g1" "alice" "re" "text" (some "zz")
        "m5" 9 true).result = .notFound "Parent message not found"
    ∧ (createMessage [group1] [sampleMsg] "g1" "alice" "re" "text" (some "m1")
        "m5" 9 true).result
      = .ok (newMessageRec "g1" "alice" "re" "text" (some "m1") "m5" 9) := by
  constructor
  · have h := (replyTo_validation [group1] [sampleMsg] "g1" "alice" "re" "text"
      "zz" "m5" 9 true group1 (by decide) (by decide) (by decide)).1 (by decide)
    rw [h]
  · exact ((replyTo_validation [group1] [sampleMsg] "g1" "alice" "re" "text"
      "m1" "m5" 9 true group1 (by decide) (by decide) (by decide)).2
      (by decide) rfl).1

/-- Explicit outcome of the list route once the group is found and the
caller is a member: the response carries the `skip`/`limit` slice of the
sorted non-deleted group messages (each with the read-mark applied) and
the pagination envelope; the store gets the read-mark applied to every
entry whose id is in the returned page. -/
theorem getMessages_member (groups : List Group) (store : List Message)
    (g : String) (pageQ limitQ : Option String) (uid uname : String)
    (grp : Group) (hg : findGroup groups g = some grp)
    (hm : uid ∈ grp.members) :
    getMessages groups store g pageQ limitQ uid uname
      = ⟨.ok
          ((((groupMessages store g).drop
               (((parseIntOr pageQ 1 - 1) * parseIntOr limitQ 50).toNat)).take
               (parseIntOr limitQ 50).toNat).map
             (fun m => if uname ∈ m.readBy then m else m.markAsRead uname),
           ⟨(store.filter (isVisibleIn g)).length, parseIntOr pageQ 1,
            jsCeilDiv (store.filter (isVisibleIn g)).length
              (parseIntOr limitQ 50),
            parseIntOr limitQ 50⟩),
         store.map (fun m =>
           if (((groupMessages store g).drop
                 (((parseIntOr pageQ 1 - 1) * parseIntOr limitQ 50).toNat)).take
                 (parseIntOr limitQ 50).toNat).any (fun x => x.mid == m.mid)
           then (if uname ∈ m.readBy then m else m.markAsRead uname)
           else m)⟩ := by
  unfold getMessages
  rw [hg]
  simp only [if_pos hm]

/-- Any 200 answer of the list route echoes the parsed `page`/`limit`
and reports `total` as the count of non-deleted messages of the group
and `pages` as the ceiling of `total / limit`. -/
theorem getMessages_ok_pagination (groups : List Group) (store : List Message)
    (g : String) (pageQ limitQ : Option String) (uid uname : String)
    (msgs : List Message) (pag : Pagination)
    (h : (getMessages groups store g pageQ limitQ uid uname).result
          = .ok (msgs, pag)) :
    pag.page = parseIntOr pageQ 1
    ∧ pag.limit = parseIntOr limitQ 50
    ∧ pag.total = (store.filter (isVisibleIn g)).length
    ∧ pag.pages = jsCeilDiv (store.filter (isVisibleIn g)).length
        (parseIntOr limitQ 50) := by
  rcases hg : findGroup groups g with _ | grp
  · rw [show getMessages groups store g pageQ limitQ uid uname
        = ⟨.notFound "Group not found", store⟩ by unfold getMessages; rw [hg]]
      at h
    simp at h
  · by_cases hm : uid ∈ grp.members
    · rw [getMessages_member groups store g pageQ limitQ uid uname grp hg hm]
        at h
      simp only [HandlerResult.ok.injEq, Prod.mk.injEq] at h
      rw [← h.2]
      exact ⟨rfl, rfl, rfl, rfl⟩
    · rw [show getMessages groups store g pageQ limitQ uid uname
          = ⟨.forbidden "You are not a member of this group", store⟩ by
            unfold getMessages; rw [hg]; simp only [if_neg hm]] at h
      simp at h

/-- C7 (amended): the list route parses `page`/`limit` as
`parseInt(q) || default` with defaults 1 and 50.  An absent parameter, a
value with no leading integer (`parseInt` gives `NaN`), and a value
parsing to `0` are replaced by the default; but a negative integer value
is kept as-is (e.g. `page=-2`), and a fractional value is truncated to
its leading integer part rather than defaulted.  Every 200 answer of the
route echoes exactly these parsed values. -/
theorem pagination_param_defaults (q : Option String) (d : Int) :
    (q = none → parseIntOr q d = d)
    ∧ (∀ s, q = some s → jsParseInt s = none → parseIntOr q d = d)
    ∧ (∀ s, q = some s → jsParseInt s = some 0 → parseIntOr q d = d)
    ∧ (∀ s n, q = some s → jsParseInt s = some n → n ≠ 0 → parseIntOr q d = n)
    ∧ jsParseInt "0" = some 0
    ∧ jsParseInt "" = none
    ∧ jsParseInt "abc" = none
    ∧ jsParseInt "-2" = some (-2)
    ∧ jsParseInt "2.9" = some 2
    ∧ (∀ groups store g limitQ uid uname msgs pag,
        (getMessages groups store g q limitQ uid uname).result
          = .ok (msgs, pag) →
        pag.page = parseIntOr q 1 ∧ pag.limit = parseIntOr limitQ 50) := by
  refine ⟨?_, ?_, ?_, ?_, by decide, by decide, by decide, by decide,
    by decide, ?_⟩
  · rintro rfl; rfl
  · rintro s rfl hs; simp [parseIntOr, hs]
  · rintro s rfl hs; simp [parseIntOr, hs]
  · rintro s n rfl hs hn; simp [parseIntOr, hs, hn]
  · intro groups store g limitQ uid uname msgs pag h
    have hp := getMessages_ok_pagination groups store g q limitQ uid uname
      msgs pag h
    exact ⟨hp.1, hp.2.1⟩

/-- Witness for `pagination_param_defaults`: concrete defaulting of a
zero page and pass-through of a 200 answer. -/
theorem pagination_param_defaults_witness :
    parseIntOr (some "0") 1 = 1
    ∧ parseIntOr (some "7") 1 = 7 := by
  constructor
  · exact (pagination_param_defaults (some "0") 1).2.2.1 "0" rfl (by decide)
  · exact (pagination_param_defaults (some "7") 1).2.2.2.1 "7" 7 rfl
      (by decide) (by decide)

/-- C9: a successful list call is not read-only.  For a member caller
with a non-empty display name, the route answers 200 with every returned
message containing the display name of the caller in `readBy`, and the
store left behind is the old store with the display name appended to the
`readBy` of exactly those entries whose id is in the returned page and
whose `readBy` did not already contain it — the mark uses `req.user.name`,
not the user id — while every other field of every message is unchanged. -/
theorem list_marks_read_side_effect (groups : List Group)
    (store : List Message) (g : String) (pageQ limitQ : Option String)
    (uid uname : String) (grp : Group) (hg : findGroup groups g = some grp)
    (hm : uid ∈ grp.members) (hn : uname ≠ "") :
    ∃ msgs pag,
      (getMessages groups store g pageQ limitQ uid uname).result
        = .ok (msgs, pag)
      ∧ (∀ m' ∈ msgs, uname ∈ m'.readBy)
      ∧ (getMessages groups store g pageQ limitQ uid uname).store
          = store.map (fun m =>
              if msgs.any (fun x => x.mid == m.mid) = true ∧ uname ∉ m.readBy
              then { m with readBy := m.readBy ++ [uname] } else m)
      ∧ ((getMessages groups store g pageQ limitQ uid uname).store).map
          Message.core = store.map Message.core := by
  rw [getMessages_member groups store g pageQ limitQ uid uname grp hg hm]
  set slice := (((groupMessages store g).drop
      (((parseIntOr pageQ 1 - 1) * parseIntOr limitQ 50).toNat)).take
      (parseIntOr limitQ 50).toNat) with hslice
  set touch := fun (m : Message) =>
    if uname ∈ m.readBy then m else m.markAsRead uname with htouch
  have htouch_mid : ∀ m : Message, (touch m).mid = m.mid := by
    intro m
    by_cases hin : uname ∈ m.readBy <;> simp [htouch, hin]
  have htouch_core : ∀ m : Message, (touch m).core = m.core := by
    intro m
    by_cases hin : uname ∈ m.readBy <;> simp [htouch, hin]
  have hany : ∀ m : Message,
      (slice.map touch).any (fun x => x.mid == m.mid)
        = slice.any (fun x => x.mid == m.mid) := by
    intro m
    rw [List.any_map]
    congr 1
    funext x
    simp [htouch_mid x]
  refine ⟨slice.map touch, _, rfl, ?_, ?_, ?_⟩
  · intro m' hm'
    rcases List.mem_map.mp hm' with ⟨x, hx, rfl⟩
    by_cases hin : uname ∈ x.readBy
    · simp [htouch, hin]
    · simp [htouch, hin, Message.markAsRead, hn]
  · have : (fun m : Message =>
        if slice.any (fun x => x.mid == m.mid) then touch m else m)
        = (fun m : Message =>
        if (slice.map touch).any (fun x => x.mid == m.mid) = true
            ∧ uname ∉ m.readBy
        then { m with readBy := m.readBy ++ [uname] } else m) := by
      funext m
      rw [hany m]
      cases ha : slice.any (fun x => x.mid == m.mid) with
      | false => simp [ha]
      | true =>
        by_cases hin : uname ∈ m.readBy
        · simp [ha, hin, htouch]
        · simp [ha, hin, htouch, Message.markAsRead, hn]
    rw [this]
  · rw [List.map_map]
    have : (Message.core ∘ fun m : Message =>
        if slice.any (fun x => x.mid == m.mid) then touch m else m)
        = Message.core := by
      funext m
      by_cases ha : slice.any (fun x => x.mid == m.mid) = true
      · simp [Function.comp, ha, htouch_core m]
      · simp [Function.comp, ha]
    rw [this]

/-- Witness for `list_marks_read_side_effect`: a concrete successful
list call leaves a store whose messages agree with the old ones on every
field except `readBy`. -/
theorem list_marks_read_side_effect_witness :
    ((getMessages [group1] [sampleMsg] "g1" none none "alice" "Bob").store).map
      Message.core = [sampleMsg].map Message.core := by
  obtain ⟨msgs, pag, hres, hmem, hstore, hcore⟩ :=
    list_marks_read_side_effect [group1] [sampleMsg] "g1" none none "alice"
      "Bob" group1 (by decide) (by decide) (by decide)
  exact hcore

/-- The ceiling bounds of `(a + b - 1) / b` for `b > 0`: it is the least
number of pages of size `b` covering `a` items. -/
theorem ceil_div_bounds (a b : Nat) (hb : 0 < b) :
    a ≤ ((a + b - 1) / b) * b ∧ ((a + b - 1) / b) * b < a + b := by
  have hdm := Nat.div_add_mod (a + b - 1) b
  have hmod : (a + b - 1) % b < b := Nat.mod_lt _ hb
  rw [mul_comm]
  generalize hP : b * ((a + b - 1) / b) = P at hdm ⊢
  omega

/-- C5: a 200 answer of the list route returns, up to the `readBy` mark,
exactly the `skip`/`limit` slice of the non-deleted messages of the
group sorted ascending by `createdAt` (a stable sorted permutation of
the filtered store); every returned message is non-deleted and belongs
to the group; the returned sequence is sorted; `pagination.total` is the
count of non-deleted messages of the group; `page` and `limit` are the
parsed parameters; and `pages` is the ceiling of `total / limit`
(characterised by the two bounds `total ≤ pages*limit < total + limit`). -/
theorem list_pagination_spec (groups : List Group) (store : List Message)
    (g : String) (pageQ limitQ : Option String) (uid uname : String)
    (grp : Group) (hg : findGroup groups g = some grp) (hm : uid ∈ grp.members)
    (hp : 1 ≤ parseIntOr pageQ 1) (hl : 1 ≤ parseIntOr limitQ 50) :
    ∃ msgs pag,
      (getMessages groups store g pageQ limitQ uid uname).result
        = .ok (msgs, pag)
      ∧ msgs.map Message.core
          = (((groupMessages store g).drop
               (((parseIntOr pageQ 1 - 1) * parseIntOr limitQ 50).toNat)).take
               (parseIntOr limitQ 50).toNat).map Message.core
      ∧ (groupMessages store g).Perm (store.filter (isVisibleIn g))
      ∧ List.Sorted createdAtLe (groupMessages store g)
      ∧ List.Sorted createdAtLe msgs
      ∧ (∀ m' ∈ msgs, m'.deleted = false ∧ m'.group = g)
      ∧ pag.total = (store.filter (isVisibleIn g)).length
      ∧ pag.page = parseIntOr pageQ 1
      ∧ pag.limit = parseIntOr limitQ 50
      ∧ (pag.total : Int) ≤ pag.pages * pag.limit
      ∧ pag.pages * pag.limit < (pag.total : Int) + pag.limit := by
  rw [getMessages_member groups store g pageQ limitQ uid uname grp hg hm]
  set l := parseIntOr limitQ 50 with hldef
  set p := parseIntOr pageQ 1 with hpdef
  set slice := (((groupMessages store g).drop ((( p - 1) * l).toNat)).take
      l.toNat) with hslice
  set touch := fun (m : Message) =>
    if uname ∈ m.readBy then m else m.markAsRead uname with htouch
  have htouch_core : ∀ m : Message, (touch m).core = m.core := by
    intro m
    by_cases hin : uname ∈ m.readBy <;> simp [htouch, hin]
  have htouch_createdAt : ∀ m : Message, (touch m).createdAt = m.createdAt := by
    intro m
    by_cases hin : uname ∈ m.readBy <;> simp [htouch, hin]
  have hsub : slice.Sublist (groupMessages store g) :=
    (List.take_sublist _ _).trans (List.drop_sublist _ _)
  have hsorted : List.Sorted createdAtLe (groupMessages store g) :=
    List.sorted_insertionSort createdAtLe _
  refine ⟨slice.map touch, _, rfl, ?_, ?_, hsorted, ?_, ?_, rfl, rfl, rfl,
    ?_, ?_⟩
  · rw [List.map_map]
    congr 1
    funext m
    exact htouch_core m
  · exact List.perm_insertionSort createdAtLe _
  · rw [List.Sorted, List.pairwise_map]
    have hps := List.Pairwise.sublist hsub hsorted
    exact hps.imp (fun h => by
      simp only [createdAtLe, htouch_createdAt] at h ⊢
      exact h)
  · intro m' hm'
    rcases List.mem_map.mp hm' with ⟨x, hx, rfl⟩
    have hx2 : x ∈ groupMessages store g :=
      hsub.mem hx
    have hx3 : x ∈ store.filter (isVisibleIn g) :=
      (List.perm_insertionSort createdAtLe _).mem_iff.mp hx2
    have hx4 : isVisibleIn g x = true := (List.mem_filter.mp hx3).2
    have hgrp : x.group = g := by
      have hand := (Bool.and_eq_true _ _).mp hx4
      exact beq_iff_eq.mp hand.1
    have hdel : x.deleted = false := by
      have hand := (Bool.and_eq_true _ _).mp hx4
      simpa using hand.2
    have htouch_deleted : (touch x).deleted = x.deleted := by
      by_cases hin : uname ∈ x.readBy <;> simp [htouch, hin]
    have htouch_group : (touch x).group = x.group := by
      by_cases hin : uname ∈ x.readBy <;> simp [htouch, hin]
    exact ⟨htouch_deleted.trans hdel, htouch_group.trans hgrp⟩
  · have hpos : (0 : Int) < l := by omega
    have hLpos : 0 < l.toNat := by omega
    have hcast : ((l.toNat : Nat) : Int) = l := Int.toNat_of_nonneg (by omega)
    dsimp only
    rw [jsCeilDiv, if_pos hpos, ← hcast]
    exact_mod_cast (ceil_div_bounds (store.filter (isVisibleIn g)).length
      l.toNat hLpos).1
  · have hpos : (0 : Int) < l := by omega
    have hLpos : 0 < l.toNat := by omega
    have hcast : ((l.toNat : Nat) : Int) = l := Int.toNat_of_nonneg (by omega)
    dsimp only
    rw [jsCeilDiv, if_pos hpos, ← hcast]
    exact_mod_cast (ceil_div_bounds (store.filter (isVisibleIn g)).length
      l.toNat hLpos).2

/-- Witness for `list_pagination_spec`: a concrete member call answers
200. -/
theorem list_pagination_spec_witness :
    (getMessages [group1] [sampleMsg] "g1" none none "alice" "Bob").result.status
      = 200 := by
  obtain ⟨msgs, pag, hres, -⟩ :=
    list_pagination_spec [group1] [sampleMsg] "g1" none none "alice" "Bob"
      group1 (by decide) (by decide) (by decide) (by decide)
  rw [hres]
  rfl

/-- Sequential blocks on the step machine compute the fold of complete
`markAsRead` calls: running calls `k, …, k+m-1` each to completion
applies `pushIfAbsent` for the corresponding users in order. -/
theorem runReads_seq_aux (users : List String) :
    ∀ (m k : Nat) (st : ReadState), st.locals.length = users.length →
      k + m ≤ users.length →
      ((seqSchedAux k m).foldl (readStep users) st).store
        = seqMarkAll st.store ((users.drop k).take m) := by
  intro m
  induction m with
  | zero =>
    intro k st hlen hkm
    simp [seqSchedAux, seqMarkAll]
  | succ m ih =>
    intro k st hlen hkm
    have hk : k < users.length := by omega
    have hkl : k < st.locals.length := by omega
    rw [seqSchedAux]
    simp only [List.foldl_cons]
    have hst1 : readStep users st (ReadEvent.load k)
        = { st with locals := st.locals.set k (some st.store) } := rfl
    rw [hst1]
    have hlook : (st.locals.set k (some st.store))[k]? = some (some st.store) :=
      List.getElem?_set_self hkl
    have hu : users[k]? = some (users.get ⟨k, hk⟩) :=
      List.getElem?_eq_getElem hk
    have hst2 : readStep users
        { st with locals := st.locals.set k (some st.store) }
        (ReadEvent.save k)
        = { store := pushIfAbsent st.store (users.get ⟨k, hk⟩),
            locals := st.locals.set k (some st.store) } := by
      simp only [readStep, hlook, hu]
      unfold pushIfAbsent
      split
      · rfl
      · rfl
    rw [hst2]
    rw [ih (k + 1) _ (by simp [hlen]) (by omega)]
    rw [List.drop_eq_getElem_cons hk, List.take_succ_cons]
    rfl

/-- Bridge: the fully sequential schedule of the in-flight-call machine
leaves exactly the `readBy` array computed by folding the complete
`markAsRead` calls in order. -/
theorem runReads_seqSched (users init : List String) :
    (runReads users init (seqSched users.length)).store
      = seqMarkAll init users := by
  unfold runReads seqSched
  rw [runReads_seq_aux users users.length 0
    ⟨init, List.replicate users.length none⟩ (by simp) (by omega)]
  simp

/-- Membership in the sequential fold: an element is present iff it was
present initially or is a non-empty calling user. -/
theorem mem_seqMarkAll (users : List String) :
    ∀ (init : List String) (x : String),
      x ∈ seqMarkAll init users ↔ x ∈ init ∨ (x ∈ users ∧ x ≠ "") := by
  induction users with
  | nil =>
    intro init x
    simp [seqMarkAll]
  | cons u us ih =>
    intro init x
    rw [show seqMarkAll init (u :: us)
        = seqMarkAll (pushIfAbsent init u) us from rfl, ih]
    unfold pushIfAbsent
    by_cases hu : u ≠ "" ∧ u ∉ init
    · rw [if_pos hu]
      simp only [List.mem_append, List.mem_cons, List.not_mem_nil, or_false]
      constructor
      · rintro ((h | rfl) | ⟨h, hne⟩)
        · exact Or.inl h
        · exact Or.inr ⟨Or.inl rfl, hu.1⟩
        · exact Or.inr ⟨Or.inr h, hne⟩
      · rintro (h | ⟨rfl | h, hne⟩)
        · exact Or.inl (Or.inl h)
        · exact Or.inl (Or.inr rfl)
        · exact Or.inr ⟨h, hne⟩
    · rw [if_neg hu]
      simp only [List.mem_cons]
      constructor
      · rintro (h | ⟨h, hne⟩)
        · exact Or.inl h
        · exact Or.inr ⟨Or.inr h, hne⟩
      · rintro (h | ⟨rfl | h, hne⟩)
        · exact Or.inl h
        · rcases not_and_or.mp hu with h1 | h2
          · exact absurd (not_not.mp h1) hne
          · exact Or.inl (not_not.mp h2)
        · exact Or.inr ⟨h, hne⟩

/-- The sequential fold introduces no duplicate entries. -/
theorem nodup_seqMarkAll (users : List String) :
    ∀ init : List String, init.Nodup → (seqMarkAll init users).Nodup := by
  induction users with
  | nil =>
    intro init h
    exact h
  | cons u us ih =>
    intro init h
    rw [show seqMarkAll init (u :: us)
        = seqMarkAll (pushIfAbsent init u) us from rfl]
    apply ih
    unfold pushIfAbsent
    split
    · rename_i hcond
      rw [List.nodup_append]
      exact ⟨h, List.nodup_singleton u,
        fun a ha hb => hcond.2 (by simpa using (List.mem_singleton.mp hb) ▸ ha)⟩
    · exact h

/-- A step never changes the length of the locals array. -/
theorem readStep_locals_length (users : List String) (st : ReadState)
    (e : ReadEvent) :
    (readStep users st e).locals.length = st.locals.length := by
  cases e with
  | load i => simp [readStep]
  | save i =>
    simp only [readStep]
    split
    · split
      · rfl
      · rfl
    · rfl

/-- The load step, explicitly. -/
theorem readStep_load_eq (users : List String) (st : ReadState) (i : Nat) :
    readStep users st (.load i)
      = { st with locals := st.locals.set i (some st.store) } := rfl

/-- The save step of a call that has loaded a snapshot and has a user:
it appends its `$push` delta to the current store exactly when the
`includes` check passed on the snapshot. -/
theorem readStep_save_of_loaded (users : List String) (st : ReadState)
    (i : Nat) (snap : List String) (u : String)
    (h1 : st.locals[i]? = some (some snap)) (h2 : users[i]? = some u) :
    readStep users st (.save i)
      = if u ≠ "" ∧ u ∉ snap then { st with store := st.store ++ [u] }
        else st := by
  simp only [readStep]
  rw [h1, h2]

/-- A save step either appends the non-empty user of a loaded call whose
check passed, or leaves the state unchanged. -/
theorem readStep_save_eq (users : List String) (st : ReadState) (i : Nat) :
    (∃ snap u, st.locals[i]? = some (some snap) ∧ users[i]? = some u
       ∧ u ≠ "" ∧ u ∉ snap
       ∧ readStep users st (.save i) = { st with store := st.store ++ [u] })
    ∨ readStep users st (.save i) = st := by
  rcases h1 : st.locals[i]? with _ | o
  · right; simp only [readStep]; rw [h1]
  · rcases o with _ | snap
    · right; simp only [readStep]; rw [h1]
    · rcases h2 : users[i]? with _ | u
      · right; simp only [readStep]; rw [h1, h2]
      · by_cases hc : u ≠ "" ∧ u ∉ snap
        · left
          exact ⟨snap, u, rfl, rfl, hc.1, hc.2, by
            rw [readStep_save_of_loaded users st i snap u h1 h2, if_pos hc]⟩
        · right
          rw [readStep_save_of_loaded users st i snap u h1 h2, if_neg hc]

/-- A step never removes an entry from the store. -/
theorem readStep_store_mono (users : List String) (st : ReadState)
    (e : ReadEvent) (x : String) (hx : x ∈ st.store) :
    x ∈ (readStep users st e).store := by
  cases e with
  | load i => exact hx
  | save i =>
    rcases readStep_save_eq users st i with ⟨snap, u, _, _, _, _, heq⟩ | heq
    · rw [heq]; exact List.mem_append_left _ hx
    · rw [heq]; exact hx

/-- A whole run never removes an entry from the store. -/
theorem foldl_readStep_store_mono (users : List String)
    (sched : List ReadEvent) :
    ∀ (st : ReadState) (x : String), x ∈ st.store →
      x ∈ (sched.foldl (readStep users) st).store := by
  induction sched with
  | nil => intro st x hx; exact hx
  | cons e rest ih =>
    intro st x hx
    exact ih _ x (readStep_store_mono users st e x hx)

/-- Every entry a run adds to the store is a non-empty calling user. -/
theorem foldl_readStep_store_new (users : List String)
    (sched : List ReadEvent) :
    ∀ (st : ReadState) (x : String),
      x ∈ (sched.foldl (readStep users) st).store →
      x ∈ st.store ∨ (x ∈ users ∧ x ≠ "") := by
  induction sched with
  | nil => intro st x hx; exact Or.inl hx
  | cons e rest ih =>
    intro st x hx
    rcases ih _ x hx with h | h
    · cases e with
      | load i => exact Or.inl h
      | save i =>
        rcases readStep_save_eq users st i with
          ⟨snap, u, _, h2, hne, _, heq⟩ | heq
        · rw [heq] at h
          rcases List.mem_append.mp h with h | h
          · exact Or.inl h
          · have hxu : x = u := by simpa using h
            subst hxu
            exact Or.inr ⟨List.getElem?_mem h2, hne⟩
        · rw [heq] at h
          exact Or.inl h
    · exact Or.inr h

/-- If an index precedence says the load of call `i` comes strictly
before its save, then among the events of call `i` the load is first. -/
theorem loadFirst_of_indexOf_lt (i : Nat) (sched : List ReadEvent)
    (hmem : ReadEvent.load i ∈ sched)
    (hlt : sched.indexOf (ReadEvent.load i)
        < sched.indexOf (ReadEvent.save i)) :
    loadFirst i sched = true := by
  induction sched with
  | nil => cases hmem
  | cons e rest ih =>
    cases e with
    | load j =>
      by_cases hj : j = i
      · subst hj
        simp [loadFirst]
      · have hne1 : ReadEvent.load j ≠ ReadEvent.load i := by simp [hj]
        have hne2 : ReadEvent.load j ≠ ReadEvent.save i := by simp
        have hmem' : ReadEvent.load i ∈ rest := by
          rcases List.mem_cons.mp hmem with h | h
          · exact absurd h.symm hne1
          · exact h
        rw [List.indexOf_cons_ne _ hne1, List.indexOf_cons_ne _ hne2] at hlt
        unfold loadFirst
        rw [show (j == i) = false by simp [hj], Bool.false_or]
        exact ih hmem' (by omega)
    | save j =>
      by_cases hj : j = i
      · subst hj
        rw [List.indexOf_cons_self] at hlt
        exact absurd hlt (by omega)
      · have hne1 : ReadEvent.save j ≠ ReadEvent.load i := by simp
        have hne2 : ReadEvent.save j ≠ ReadEvent.save i := by simp [hj]
        have hmem' : ReadEvent.load i ∈ rest := by
          rcases List.mem_cons.mp hmem with h | h
          · exact absurd h.symm hne1
          · exact h
        rw [List.indexOf_cons_ne _ hne1, List.indexOf_cons_ne _ hne2] at hlt
        unfold loadFirst
        rw [show (j == i) = false by simp [hj]]
        simp only [Bool.not_false, Bool.true_and]
        exact ih hmem' (by omega)

/-- A complete schedule contains the save of every call `i < n`, and
among the events of call `i` the load comes first. -/
theorem complete_loadFirst (n : Nat) (sched : List ReadEvent) (i : Nat)
    (hc : isCompleteSchedule n sched = true) (hi : i < n) :
    ReadEvent.save i ∈ sched ∧ loadFirst i sched = true := by
  unfold isCompleteSchedule at hc
  rw [Bool.and_eq_true, List.all_eq_true] at hc
  have h := hc.2 i (List.mem_range.mpr hi)
  rw [Bool.and_eq_true, Bool.and_eq_true] at h
  obtain ⟨⟨hcl, hcs⟩, hlt⟩ := h
  have hcl' : sched.count (ReadEvent.load i) = 1 := by simpa using hcl
  have hcs' : sched.count (ReadEvent.save i) = 1 := by simpa using hcs
  have hlt' : sched.indexOf (ReadEvent.load i)
      < sched.indexOf (ReadEvent.save i) := by simpa using hlt
  have hms : ReadEvent.save i ∈ sched := List.count_pos_iff.mp (by omega)
  have hml : ReadEvent.load i ∈ sched := List.count_pos_iff.mp (by omega)
  exact ⟨hms, loadFirst_of_indexOf_lt i sched hml hlt'⟩

/-- Key temporal lemma: if call `i` (by the non-empty user `u`) still
has a save in the remaining schedule, and either its load is also still
ahead of that save or it has already loaded a snapshot in which the
presence of `u` implies `u` is already stored, then `u` is in the final
store: the save either appends its `$push` delta or finds `u` already
present, and the store only grows. -/
theorem save_lands (users : List String) :
    ∀ (sched : List ReadEvent) (st : ReadState) (i : Nat) (u : String),
      st.locals.length = users.length →
      users[i]? = some u → u ≠ "" →
      ReadEvent.save i ∈ sched →
      (loadFirst i sched = true
        ∨ ∃ snap, st.locals[i]? = some (some snap)
            ∧ (u ∈ snap → u ∈ st.store)) →
      u ∈ ((sched.foldl (readStep users) st).store) := by
  intro sched
  induction sched with
  | nil =>
    intro st i u _ _ _ hmem _
    cases hmem
  | cons e rest ih =>
    intro st i u hlen hu hne hmem hdisj
    have hiu : i < users.length := by
      by_contra hge
      rw [List.getElem?_eq_none (by omega)] at hu
      cases hu
    have hlen' : (readStep users st e).locals.length = users.length := by
      rw [readStep_locals_length]; exact hlen
    cases e with
    | load j =>
      have hmem' : ReadEvent.save i ∈ rest := by
        rcases List.mem_cons.mp hmem with h | h
        · exact absurd h (by simp)
        · exact h
      rw [List.foldl_cons]
      by_cases hj : j = i
      · subst hj
        apply ih _ j u hlen' hu hne hmem'
        right
        refine ⟨st.store, ?_, fun hin => hin⟩
        have hlt : j < st.locals.length := by omega
        rw [readStep_load_eq]
        exact List.getElem?_set_self hlt
      · apply ih _ i u hlen' hu hne hmem'
        rcases hdisj with hl | ⟨snap, hsnap, himp⟩
        · left
          simp only [loadFirst] at hl
          rw [show (j == i) = false by simp [hj], Bool.false_or] at hl
          exact hl
        · right
          refine ⟨snap, ?_, himp⟩
          rw [readStep_load_eq]
          exact (List.getElem?_set_ne hj).trans hsnap
    | save j =>
      by_cases hj : j = i
      · subst hj
        have hsnap : ∃ snap, st.locals[j]? = some (some snap)
            ∧ (u ∈ snap → u ∈ st.store) := by
          rcases hdisj with hl | h
          · exfalso
            simp [loadFirst] at hl
          · exact h
        rcases hsnap with ⟨snap, h1, himp⟩
        rw [List.foldl_cons, readStep_save_of_loaded users st j snap u h1 hu]
        by_cases hc : u ≠ "" ∧ u ∉ snap
        · rw [if_pos hc]
          apply foldl_readStep_store_mono
          exact List.mem_append_right _ (by simp)
        · rw [if_neg hc]
          apply foldl_readStep_store_mono
          rcases not_and_or.mp hc with h | h
          · exact absurd (not_not.mp h) hne
          · exact himp (not_not.mp h)
      · have hmem' : ReadEvent.save i ∈ rest := by
          rcases List.mem_cons.mp hmem with h | h
          · exact absurd (by simpa using h : i = j) (fun hh => hj hh.symm)
          · exact h
        rw [List.foldl_cons]
        apply ih _ i u hlen' hu hne hmem'
        rcases hdisj with hl | ⟨snap, hsnap, himp⟩
        · left
          simp only [loadFirst] at hl
          rw [show (j == i) = false by simp [hj]] at hl
          simpa using hl
        · right
          have hloc : (readStep users st (.save j)).locals = st.locals := by
            rcases readStep_save_eq users st j with
              ⟨s2, u2, _, _, _, _, heq⟩ | heq
            · rw [heq]
            · rw [heq]
          refine ⟨snap, ?_, ?_⟩
          · rw [hloc]; exact hsnap
          · intro hin
            exact readStep_store_mono users st (.save j) u (himp hin)

/-- C1 (amended): for every complete concurrent schedule of `markAsRead`
calls — each call loading once and saving once, in any interleaving —
the final `readBy`, as a set, equals its initial contents united with
the distinct non-empty calling users: no update is lost, because each
save applies an atomic `$push` append rather than overwriting the
array.  For the sequential schedule the same set equality holds and,
additionally, no user appears twice.  (Under concurrency the
no-duplicates half fails, because the membership check and the push are
not one atomic set-insert: see the duplicate counterexample.) -/
theorem markRead_concurrency_spec (users init : List String)
    (hnd : init.Nodup) :
    (∀ sched, isCompleteSchedule users.length sched = true →
       ∀ x, x ∈ (runReads users init sched).store
         ↔ x ∈ init ∨ (x ∈ users ∧ x ≠ ""))
    ∧ (∀ x, x ∈ (runReads users init (seqSched users.length)).store
         ↔ x ∈ init ∨ (x ∈ users ∧ x ≠ ""))
    ∧ ((runReads users init (seqSched users.length)).store).Nodup := by
  refine ⟨?_, ?_, ?_⟩
  · intro sched hc x
    constructor
    · intro hx
      exact foldl_readStep_store_new users sched _ x hx
    · rintro (hx | ⟨hx, hne⟩)
      · exact foldl_readStep_store_mono users sched _ x hx
      · obtain ⟨i, hi, rfl⟩ := List.getElem_of_mem hx
        obtain ⟨hmem, hlf⟩ := complete_loadFirst users.length sched i hc hi
        exact save_lands users sched ⟨init, List.replicate users.length none⟩
          i users[i] (by simp) (List.getElem?_eq_getElem hi) hne hmem
          (Or.inl hlf)
  · intro x
    rw [runReads_seqSched]
    exact mem_seqMarkAll users init x
  · rw [runReads_seqSched]
    exact nodup_seqMarkAll users init hnd

/-- Witness for `markRead_concurrency_spec`: a concrete interleaved
schedule of calls by `a` and `b` loses neither update, and a sequential
run with a duplicate caller stays duplicate-free. -/
theorem markRead_concurrency_spec_witness :
    ("b" ∈ (runReads ["a", "b"] ["c"]
        [.load 0, .load 1, .save 0, .save 1]).store)
    ∧ (runReads ["a", "b", "a"] ["c"] (seqSched 3)).store.Nodup := by
  have h1 := (markRead_concurrency_spec ["a", "b"] ["c"] (by decide)).1
    [.load 0, .load 1, .save 0, .save 1] (by decide) "b"
  have h2 := (markRead_concurrency_spec ["a", "b", "a"] ["c"] (by decide)).2.2
  exact ⟨h1.mpr (Or.inr ⟨by decide, by decide⟩), h2⟩

end Chat
